import Mathlib

/-!
Verification development for the `coconut` LimeSurvey extraction library.

The Lean definitions below are a shallow embedding of the Python source:
`coconut/lime.py` (RPC reply parsing, session validation, response export),
`coconut/question.py` (question titles, text cleaning, question groups,
per-response group values) and `coconut/survey.py` (question loading and
parent/child hierarchy construction).  Python dicts are modelled as
association lists with first-match lookup and in-place-update insert
(matching dict insertion-order semantics), exceptions as `Except`, and
JSON values as the inductive `JVal`.
-/

namespace Coconut

/-- A JSON value, as produced by `json.loads` in `lime.py`.  Objects keep
their key insertion order, matching Python dict iteration order. -/
inductive JVal where
  | null
  | bool (b : Bool)
  | num (n : Int)
  | str (s : String)
  | arr (elems : List JVal)
  | obj (fields : List (String × JVal))
deriving Repr

/-- First-match association-list lookup: Python `d[k]` / `k in d` on a dict
whose keys are unique. -/
def alist_lookup {κ α : Type} [DecidableEq κ] : List (κ × α) → κ → Option α
  | [], _ => none
  | (k, v) :: t, key => if k = key then some v else alist_lookup t key

/-! ## RPC reply parsing (`lime.py`, `parse_reply_patched`) -/

/-- Modelled from the spec: the external `tinyrpc` protocol object's
`_ALLOWED_REPLY_KEYS`, consulted by the patched `parse_reply` in `lime.py`.
Spec section 6 restricts response fields to exactly this set. -/
def allowedReplyKeys : List String := ["id", "result", "error", "jsonrpc"]

/-- Outcome of a successfully parsed reply: either a `JSONRPCSuccessResponse`
(`result`, `unique_id`) or a `JSONRPCErrorResponse` (`error` message value,
`_jsonrpc_error_code`, optional `data`, `unique_id`), as assembled by
`parse_reply_patched` in `lime.py`. -/
inductive RpcReply where
  | success (result : JVal) (uid : JVal)
  | failure (message : JVal) (code : JVal) (data : Option JVal) (uid : JVal)
deriving Repr

/-- The patched `JSONRPCProtocol.parse_reply` from `lime.py` (lines 231-273),
applied to an already-JSON-decoded mapping `rep`.  `Except.error` models a
raised `InvalidReplyError` / `KeyError` / `TypeError`; the checks run in
source order: key allow-list, mandatory `id`, then the `error` field, where a
bare-string error gets the sentinel code `-1` and an object error is
destructured into `message`, `code` and optional `data`. -/
def parse_reply (rep : List (String × JVal)) : Except String RpcReply :=
  match (rep.map Prod.fst).find? (fun k => !(allowedReplyKeys.contains k)) with
  | some k => .error ("Key not allowed: " ++ k)
  | none =>
    match alist_lookup rep "id" with
    | none => .error "Missing id in response"
    | some uid =>
      match alist_lookup rep "error" with
      | some e =>
        match e with
        | .null => .ok (.success ((alist_lookup rep "result").getD .null) uid)
        | .str s => .ok (.failure (.str s) (.num (-1)) none uid)
        | .obj o =>
          match alist_lookup o "message", alist_lookup o "code" with
          | some m, some c => .ok (.failure m c (alist_lookup o "data") uid)
          | _, _ => .error "KeyError"
        | _ => .error "TypeError"
      | none => .ok (.success ((alist_lookup rep "result").getD .null) uid)

/-! ## Response export (`lime.py`, `export_responses`) -/

/-- The parameters of `LimeAPI.export_responses` that its enum lists concern. -/
structure ExportParams where
  survey_id : Int
  completion_status : String
  heading_type : String
  response_type : String
deriving Repr, DecidableEq

/-- The row-collection loop of `export_responses`: for each id-to-record map
in the decoded `responses` array, append that map's values in order.  A
non-object element raises (`AttributeError` on `.values()`). -/
def collectRows : List JVal → Except String (List JVal)
  | [] => .ok []
  | JVal.obj m :: rest =>
    match collectRows rest with
    | .error e => .error e
    | .ok tail => .ok (m.map Prod.snd ++ tail)
  | _ :: _ => .error "AttributeError"

/-- The decoding tail of `export_responses` (lime.py lines 220-227), applied
to the base64-decoded, JSON-parsed document: index the document with
`"responses"` and flatten the id-wrapped records. -/
def flatten_responses (doc : JVal) : Except String (List JVal) :=
  match doc with
  | .obj fields =>
    match alist_lookup fields "responses" with
    | some (.arr maps) => collectRows maps
    | some _ => .error "TypeError"
    | none => .error "KeyError"
  | _ => .error "TypeError"

/-- `LimeAPI.export_responses` (lime.py lines 192-227), with the network
modelled by `server` (the RPC proxy returning the already-decoded document)
and the issued RPC requests recorded in the first component.  The source
binds the three valid-value lists and never consults them: no parameter is
validated, and the RPC call is issued unconditionally. -/
def export_responses (server : ExportParams → JVal) (p : ExportParams) :
    List ExportParams × Except String (List JVal) :=
  let _completion_statuses : List String := ["complete", "incomplete", "all"]
  let _heading_types : List String := ["code", "full", "abbreviated"]
  let _response_types : List String := ["short", "long"]
  ([p], flatten_responses (server p))

/-! ## Session validation (`lime.py`, `_validate_*`) -/

/-- The session-relevant state of a `LimeAPI` instance: `session_key = none`
models `None`, `rpc_client_ok`/`rpc_proxy_ok` model the `isinstance` checks
on the transport handles, and `auth_round_trips` counts completed
authentication handshakes. -/
structure LimeState where
  _authenticated : Bool
  session_key : Option String
  rpc_client_ok : Bool
  rpc_proxy_ok : Bool
  auth_round_trips : Nat
deriving Repr, DecidableEq

/-- `LimeAPI._validate_session_key` (lime.py lines 297-308): the key must be
present (not `None`), a string (automatic here), and non-empty. -/
def _validate_session_key (st : LimeState) : Bool :=
  match st.session_key with
  | none => false
  | some s => !(s.length = 0)

/-- `LimeAPI._validate_rpc_resources` (lime.py lines 287-295). -/
def _validate_rpc_resources (st : LimeState) : Bool :=
  st.rpc_client_ok && st.rpc_proxy_ok

/-- `LimeAPI._validate_auth` (lime.py lines 310-324), the pre-call session
check run by `request_ctx`: re-authenticate (an arbitrary state transition
`authenticate`, which in the source performs a network handshake) when never
authenticated, or the token fails validation, or a transport handle is
absent; otherwise do nothing. -/
def _validate_auth (authenticate : LimeState → LimeState) (st : LimeState) : LimeState :=
  if !st._authenticated then authenticate st
  else if !(_validate_session_key st) then authenticate st
  else if !(_validate_rpc_resources st) then authenticate st
  else st

/-! ## Question text cleaning (`question.py`, `clean_question_text`) -/

/-- Step 1 of `clean_question_text`: `re.sub(r"[\n\t\r]", " ", t)`, a
character-wise replacement. -/
def replaceNTR (c : Char) : Char :=
  if c = '\n' ∨ c = '\t' ∨ c = '\r' then ' ' else c

/-- The part of a character list strictly after its last `'>'` (the whole
list when no `'>'` occurs). -/
def afterLastGt : List Char → List Char
  | [] => []
  | c :: t => if '>' ∈ t then afterLastGt t else if c = '>' then t else c :: afterLastGt t

theorem afterLastGt_length_le (l : List Char) : (afterLastGt l).length ≤ l.length := by
  induction l with
  | nil => simp [afterLastGt]
  | cons c t ih =>
    simp only [afterLastGt]
    split
    · exact Nat.le_succ_of_le ih
    · split
      · simp
      · simpa using ih

/-- Step 2 of `clean_question_text`: `re.sub(r"<.*>", " ", t)` on a line
holding no newline (step 1 removed them), with Python regex semantics:
scan left to right; at a literal `'<'` that still has a `'>'` somewhere
after it, the greedy `.*` extends the match to the last such `'>'`; the
match is replaced by one space and scanning resumes after it. -/
def tagSub : List Char → List Char
  | [] => []
  | c :: t =>
    if c = '<' ∧ '>' ∈ t then ' ' :: tagSub (afterLastGt t)
    else c :: tagSub t
termination_by l => l.length
decreasing_by
  · simpa using Nat.lt_succ_of_le (afterLastGt_length_le t)
  · simp

/-- Step 3 of `clean_question_text`: `re.sub(r" +", " ", t)`, collapsing
each maximal run of spaces to a single space. -/
def spaceCollapse : List Char → List Char
  | [] => []
  | ' ' :: ' ' :: t => spaceCollapse (' ' :: t)
  | c :: t => c :: spaceCollapse t
termination_by l => l.length

/-- `clean_question_text` from `question.py` (lines 137-142): the three
`re.sub` passes in source order. -/
def clean_question_text (s : String) : String :=
  ⟨spaceCollapse (tagSub (s.data.map replaceNTR))⟩

/-- The characters of a list strictly before its first `'<'`. -/
def beforeFirstLt (l : List Char) : List Char := l.takeWhile (fun c => c ≠ '<')

/-- The characters of a list strictly after its first `'<'`. -/
def afterFirstLt (l : List Char) : List Char := (l.dropWhile (fun c => c ≠ '<')).tail

/-- The tag-collapsing step as the specification describes it: when the
first `'<'` of the line precedes some `'>'` (equivalently, precedes the last
`'>'`), the whole span from that first `'<'` to the last `'>'` — one single
greedy match, even when it covers several independent tags — becomes one
space; otherwise the line is unchanged. -/
def spanCollapseSpec (l : List Char) : List Char :=
  if '<' ∈ l ∧ '>' ∈ afterFirstLt l then
    beforeFirstLt l ++ ' ' :: afterLastGt l
  else l

/-- The full cleaner as the specification describes it: newlines, tabs and
carriage returns become spaces; the first-`'<'`-to-last-`'>'` span collapses
to one space; runs of spaces collapse to one space; nothing else changes. -/
def cleanSpec (s : String) : String :=
  ⟨spaceCollapse (spanCollapseSpec (s.data.map replaceNTR))⟩

/-! ## Question hierarchy (`survey.py` loading and relationship pass) -/

/-- A raw question record as consumed by `Question.__init__`: `qid` is
`data["id"]["qid"]`, `parent_qid` is `data["parent_qid"]`, `title` is
`data["title"]` and `question` is the raw question text `data["question"]`.
(`sid`, `gid` and `type` play no part in the claims.) -/
structure RawQ where
  qid : Nat
  parent_qid : Nat
  title : String
  question : String
deriving Repr, DecidableEq

/-- Python dict assignment `d[k] = v`: replace the value in place if the key
exists, else append. -/
def upsertQ : List (Nat × RawQ) → Nat → RawQ → List (Nat × RawQ)
  | [], k, v => [(k, v)]
  | (k', v') :: t, k, v => if k' = k then (k', v) :: t else (k', v') :: upsertQ t k v

/-- Dict assignment for the parent's child map (`self.children[child.question_id]
= child`); only the keys (child qids) are tracked, the child objects living in
the survey state. -/
def upsertNat : List Nat → Nat → List Nat
  | [], k => [k]
  | k' :: t, k => if k' = k then k' :: t else k' :: upsertNat t k

/-- The mutable state built by `Survey._load_questions`: `entries` is
`questions_by_id` in insertion order, `parentOf`/`childrenOf` are the
`Question.parent` reference and the keys of `Question.children`, and
`groups` is `question_groups_by_key` in insertion order, each group
represented by its key and its parent question's qid. -/
structure SurveyState where
  entries : List (Nat × RawQ)
  parentOf : Nat → Option Nat
  childrenOf : Nat → List Nat
  groups : List (String × Nat)

/-- The `questions_by_id` indexing loop of `Survey._load_questions`. -/
def loadQuestions (qs : List RawQ) : List (Nat × RawQ) :=
  qs.foldl (fun acc q => upsertQ acc q.qid q) []

/-- `Question.title` (question.py lines 32-36): a child question renders as
`"{parent._title}[{self._title}]"` using the parent's base title, a root
question as its own base title. -/
def titleOf (st : SurveyState) (q : Nat) : String :=
  match alist_lookup st.entries q with
  | none => ""
  | some d =>
    match st.parentOf q with
    | some p =>
      (match alist_lookup st.entries p with | some pd => pd.title | none => "")
        ++ "[" ++ d.title ++ "]"
    | none => d.title

/-- `Question.text` (question.py line 48): the cleaned raw question text. -/
def questionTextOf (st : SurveyState) (q : Nat) : String :=
  match alist_lookup st.entries q with
  | some d => clean_question_text d.question
  | none => ""

/-- One iteration of `Survey._process_question_relationships` (survey.py
lines 129-138) for the entry `e = (qid, raw)`: when `raw.parent_qid` indexes
a loaded question, link child to parent (`_create_question_link`) and then
ensure a group exists under the parent's current display title
(`_create_question_group`). -/
def processOne (st : SurveyState) (e : Nat × RawQ) : SurveyState :=
  match alist_lookup st.entries e.2.parent_qid with
  | none => st
  | some _ =>
    let p := e.2.parent_qid
    let c := e.1
    let st' : SurveyState :=
      { st with
        parentOf := fun x => if x = c then some p else st.parentOf x
        childrenOf := fun x => if x = p then upsertNat (st.childrenOf p) c else st.childrenOf x }
    let key := titleOf st' p
    if (st'.groups.map Prod.fst).contains key then st'
    else { st' with groups := st'.groups ++ [(key, p)] }

/-- `Survey._load_questions` followed by
`Survey._process_question_relationships`: index the raw questions by qid,
then run the single linking pass over them in insertion order. -/
def buildSurvey (qs : List RawQ) : SurveyState :=
  let es := loadQuestions qs
  es.foldl processOne
    { entries := es, parentOf := fun _ => none, childrenOf := fun _ => [], groups := [] }

/-- `Question.has_children` (question.py lines 24-26). -/
def has_children (st : SurveyState) (q : Nat) : Bool :=
  !(st.childrenOf q).isEmpty

/-! ## Per-response group values (`question.py`, `QuestionGroup.get_value`) -/

/-- The two Python exceptions relevant to the aggregation path: `KeyError`
from a failed answer lookup, `AttributeError` from calling an undefined
method. -/
inductive PyErr where
  | keyError
  | attributeError
deriving Repr, DecidableEq

/-- Python string comparison: lexicographic by code point. -/
def lexLe : List Char → List Char → Bool
  | [], _ => true
  | _ :: _, [] => false
  | a :: as, b :: bs =>
    if a.toNat < b.toNat then true
    else if b.toNat < a.toNat then false
    else lexLe as bs

/-- Insert into an already sorted list, keeping order. -/
def insertSorted (x : String) : List String → List String
  | [] => [x]
  | y :: t => if lexLe x.data y.data then x :: y :: t else y :: insertSorted x t

/-- Python `sorted` on a list of strings: ascending code-point-lexicographic
order (insertion sort; order of equal elements is immaterial for equal
strings). -/
def sortStrings (l : List String) : List String := l.foldr insertSorted []

/-- The child loop of `QuestionGroup.get_value` (question.py lines 114-120)
over the group's child qids: ask the response for each sub-question's
answer; an answer equal to the sentinel `"N/A"` contributes nothing, any
other answer contributes the sub-question's cleaned text; a raised lookup
error propagates. -/
def collectValues (st : SurveyState) (ga : String → Except PyErr String) :
    List Nat → Except PyErr (List String)
  | [] => .ok []
  | sq :: rest =>
    match ga (titleOf st sq) with
    | .error e => .error e
    | .ok answer =>
      match collectValues st ga rest with
      | .error e => .error e
      | .ok tail => .ok (if answer = "N/A" then tail else questionTextOf st sq :: tail)

/-- `QuestionGroup.get_other_value` (question.py lines 127-134) for the
group whose parent question is `p`: look up the key
`parent.title + "[other]"`; a `KeyError` and the literal string `"None"`
both yield no value; any other exception propagates (`except KeyError`
catches only `KeyError`). -/
def get_other_value (st : SurveyState) (p : Nat) (ga : String → Except PyErr String) :
    Except PyErr (Option String) :=
  match ga (titleOf st p ++ "[other]") with
  | .ok v => .ok (if v = "None" then none else some v)
  | .error .keyError => .ok none
  | .error e => .error e

/-- `QuestionGroup.get_value` (question.py lines 113-125) for the group
whose parent question is `p`: collect the child values, look up the "other"
value, sort the child values, and append the "other" value last when it is
not `None`. -/
def get_value (st : SurveyState) (p : Nat) (ga : String → Except PyErr String) :
    Except PyErr (List String) :=
  match collectValues st ga (st.childrenOf p) with
  | .error e => .error e
  | .ok vals =>
    match get_other_value st p ga with
    | .error e => .error e
    | .ok other =>
      let sorted := sortStrings vals
      .ok (match other with | some o => sorted ++ [o] | none => sorted)

/-- Modelled from the spec: `get_answer` does not exist in src (the base
`Response` class in `response.py` defines only `id` and `dict`); per spec
section 4.5 a concrete `Response` subclass looks the answer up in the
response mapping under the question's display title, raising `KeyError`
when the key is absent. -/
def lookupGetAnswer (answers : List (String × String)) : String → Except PyErr String :=
  fun k =>
    match alist_lookup answers k with
    | some v => .ok v
    | none => .error .keyError

/-- The attribute names the public base `Response` class defines
(`response.py`): the constructor-set `data`, the `id` property and `dict` —
and nothing else. -/
def responseAttrs : List String := ["data", "id", "dict"]

/-- Attribute dispatch of `response.get_answer(...)` against the base
`Response` class: the name is not among `responseAttrs`, so Python raises
`AttributeError` (the first branch is dead and present only to exhibit the
dispatch). -/
def baseGetAnswer : String → Except PyErr String :=
  fun _ => if "get_answer" ∈ responseAttrs then .ok "" else .error .attributeError

/-! ## Association-list and loading lemmas -/

theorem alist_lookup_eq_none {κ α : Type} [DecidableEq κ] (l : List (κ × α)) (k : κ) :
    alist_lookup l k = none ↔ k ∉ l.map Prod.fst := by
  induction l with
  | nil => simp [alist_lookup]
  | cons e t ih =>
    obtain ⟨k', v'⟩ := e
    by_cases h : k' = k
    · subst h; simp [alist_lookup]
    · simp [alist_lookup, h, ih, Ne.symm h]

theorem alist_lookup_isSome {κ α : Type} [DecidableEq κ] (l : List (κ × α)) (k : κ) :
    (alist_lookup l k).isSome ↔ k ∈ l.map Prod.fst := by
  rcases hl : alist_lookup l k with _ | v
  · simpa using (alist_lookup_eq_none l k).mp hl
  · simp only [Option.isSome_some, true_iff]
    by_contra hmem
    rw [(alist_lookup_eq_none l k).mpr hmem] at hl
    exact Option.noConfusion hl

theorem alist_lookup_mem {κ α : Type} [DecidableEq κ] {l : List (κ × α)} {k : κ} {v : α}
    (h : alist_lookup l k = some v) : (k, v) ∈ l := by
  induction l with
  | nil => exact Option.noConfusion h
  | cons e t ih =>
    obtain ⟨k', v'⟩ := e
    by_cases hk : k' = k
    · subst hk
      simp [alist_lookup] at h
      simp [h]
    · simp only [alist_lookup, if_neg hk] at h
      exact List.mem_cons_of_mem _ (ih h)

theorem alist_lookup_of_mem {κ α : Type} [DecidableEq κ] {l : List (κ × α)} {k : κ} {v : α}
    (hnd : (l.map Prod.fst).Nodup) (h : (k, v) ∈ l) : alist_lookup l k = some v := by
  induction l with
  | nil => simp at h
  | cons e t ih =>
    obtain ⟨k', v'⟩ := e
    simp only [List.map_cons, List.nodup_cons] at hnd
    rcases List.mem_cons.mp h with heq | ht
    · cases heq
      simp [alist_lookup]
    · have hk : k' ≠ k := by
        rintro rfl
        exact hnd.1 (List.mem_map.mpr ⟨(k', v), ht, rfl⟩)
      simp [alist_lookup, hk, ih hnd.2 ht]

theorem upsertQ_of_not_mem {l : List (Nat × RawQ)} {k : Nat} (v : RawQ)
    (h : k ∉ l.map Prod.fst) : upsertQ l k v = l ++ [(k, v)] := by
  induction l with
  | nil => simp [upsertQ]
  | cons e t ih =>
    obtain ⟨k', v'⟩ := e
    simp only [List.map_cons, List.mem_cons, not_or] at h
    simp [upsertQ, Ne.symm h.1, ih h.2]

theorem upsertNat_ne_nil (l : List Nat) (k : Nat) : upsertNat l k ≠ [] := by
  cases l with
  | nil => simp [upsertNat]
  | cons k' t =>
    by_cases h : k' = k <;> simp [upsertNat, h]

theorem loadQuestions_aux (qs : List RawQ) :
    ∀ acc : List (Nat × RawQ), (acc.map Prod.fst ++ qs.map RawQ.qid).Nodup →
      qs.foldl (fun a q => upsertQ a q.qid q) acc = acc ++ qs.map (fun q => (q.qid, q)) := by
  induction qs with
  | nil => intro acc _; simp
  | cons q qs ih =>
    intro acc hnd
    have hnotmem : q.qid ∉ acc.map Prod.fst := by
      have := List.nodup_middle.mp hnd
      simp only [List.nodup_cons, List.mem_append] at this
      exact fun hm => this.1 (Or.inl hm)
    have hnd' : ((acc ++ [(q.qid, q)]).map Prod.fst ++ qs.map RawQ.qid).Nodup := by
      simpa [List.append_assoc] using hnd
    simp only [List.foldl_cons, upsertQ_of_not_mem q hnotmem, ih _ hnd', List.map_cons]
    simp

theorem loadQuestions_eq {qs : List RawQ} (h : (qs.map RawQ.qid).Nodup) :
    loadQuestions qs = qs.map fun q => (q.qid, q) := by
  simpa [loadQuestions] using loadQuestions_aux qs [] (by simpa using h)

/-! ## The hierarchy invariant

`HierCtx` collects the side conditions under which the single linking pass
establishes "group existence is exactly `has_children`": distinct qids,
distinct base titles, and a one-level hierarchy (no loaded question is both
a parent and a child), the depth assumption the specification itself makes.
`HierInv` is the invariant carried through the fold of
`_process_question_relationships`. -/

structure HierCtx (es : List (Nat × RawQ)) : Prop where
  kv : ∀ e ∈ es, e.2.qid = e.1
  keysNodup : (es.map Prod.fst).Nodup
  titlesNodup : (es.map fun e => e.2.title).Nodup
  oneLevel : ∀ e ∈ es, ∀ e' ∈ es, e'.2.parent_qid = e.1 →
    alist_lookup es e.2.parent_qid = none

structure HierInv (es done : List (Nat × RawQ)) (st : SurveyState) : Prop where
  entries_eq : st.entries = es
  parent_iff : ∀ r x, st.parentOf r = some x ↔
    ∃ q, (r, q) ∈ done ∧ q.parent_qid = x ∧ (alist_lookup es x).isSome
  children_iff : ∀ p, st.childrenOf p ≠ [] ↔
    ∃ d ∈ done, d.2.parent_qid = p ∧ (alist_lookup es p).isSome
  groups_iff : ∀ k p, (k, p) ∈ st.groups ↔
    ∃ pq, alist_lookup es p = some pq ∧ k = pq.title ∧ ∃ d ∈ done, d.2.parent_qid = p

/-- The linking part of `processOne` (child's parent pointer plus parent's
child map), named so its reductions can be stated as `rfl` lemmas. -/
def linkState (st : SurveyState) (c p : Nat) : SurveyState :=
  { st with
    parentOf := fun x => if x = c then some p else st.parentOf x
    childrenOf := fun x => if x = p then upsertNat (st.childrenOf p) c else st.childrenOf x }

theorem linkState_entries (st : SurveyState) (c p : Nat) :
    (linkState st c p).entries = st.entries := rfl

theorem linkState_groups (st : SurveyState) (c p : Nat) :
    (linkState st c p).groups = st.groups := rfl

theorem linkState_parentOf (st : SurveyState) (c p r : Nat) :
    (linkState st c p).parentOf r = if r = c then some p else st.parentOf r := rfl

theorem linkState_childrenOf (st : SurveyState) (c p r : Nat) :
    (linkState st c p).childrenOf r =
      if r = p then upsertNat (st.childrenOf p) c else st.childrenOf r := rfl

theorem processOne_none {st : SurveyState} {e : Nat × RawQ}
    (h : alist_lookup st.entries e.2.parent_qid = none) : processOne st e = st := by
  unfold processOne
  rw [h]

theorem processOne_some {st : SurveyState} {e : Nat × RawQ} {pq : RawQ}
    (h : alist_lookup st.entries e.2.parent_qid = some pq) :
    processOne st e =
      (if ((linkState st e.1 e.2.parent_qid).groups.map Prod.fst).contains
            (titleOf (linkState st e.1 e.2.parent_qid) e.2.parent_qid) then
        linkState st e.1 e.2.parent_qid
      else
        { linkState st e.1 e.2.parent_qid with
          groups := (linkState st e.1 e.2.parent_qid).groups ++
            [(titleOf (linkState st e.1 e.2.parent_qid) e.2.parent_qid, e.2.parent_qid)] }) := by
  unfold processOne
  rw [h]
  rfl

theorem processOne_inv {es done rest : List (Nat × RawQ)} {e : Nat × RawQ} {st : SurveyState}
    (hc : HierCtx es) (hsplit : es = done ++ e :: rest) (hinv : HierInv es done st) :
    HierInv es (done ++ [e]) (processOne st e) := by
  have hmem_e : e ∈ es := by rw [hsplit]; simp
  rcases hlk : alist_lookup es e.2.parent_qid with _ | pq
  · rw [processOne_none (by rw [hinv.entries_eq]; exact hlk)]
    refine ⟨hinv.entries_eq, ?_, ?_, ?_⟩
    · intro r x
      rw [hinv.parent_iff r x]
      constructor
      · rintro ⟨q, hq, h2, h3⟩
        exact ⟨q, List.mem_append_left _ hq, h2, h3⟩
      · rintro ⟨q, hq, h2, h3⟩
        rcases List.mem_append.mp hq with hq | hq
        · exact ⟨q, hq, h2, h3⟩
        · exfalso
          have hq' : (r, q) = e := by simpa using hq
          have hq2 : q = e.2 := congrArg Prod.snd hq'
          rw [← hq2, h2] at hlk
          rw [hlk] at h3
          simp at h3
    · intro p
      rw [hinv.children_iff p]
      constructor
      · rintro ⟨d, hd, h2, h3⟩
        exact ⟨d, List.mem_append_left _ hd, h2, h3⟩
      · rintro ⟨d, hd, h2, h3⟩
        rcases List.mem_append.mp hd with hd | hd
        · exact ⟨d, hd, h2, h3⟩
        · exfalso
          have hd' : d = e := by simpa using hd
          rw [← hd', h2] at hlk
          rw [hlk] at h3
          simp at h3
    · intro k p
      rw [hinv.groups_iff k p]
      constructor
      · rintro ⟨pq0, h1, h2, d, hd, h3⟩
        exact ⟨pq0, h1, h2, d, List.mem_append_left _ hd, h3⟩
      · rintro ⟨pq0, h1, h2, d, hd, h3⟩
        rcases List.mem_append.mp hd with hd | hd
        · exact ⟨pq0, h1, h2, d, hd, h3⟩
        · exfalso
          have hd' : d = e := by simpa using hd
          rw [← hd', h3] at hlk
          rw [hlk] at h1
          exact Option.noConfusion h1
  · have hmem_pq : (e.2.parent_qid, pq) ∈ es := alist_lookup_mem hlk
    have hin_done : ∀ d ∈ done, d ∈ es := fun d hd => by
      rw [hsplit]; exact List.mem_append_left _ hd
    have hc_not_done : e.1 ∉ done.map Prod.fst := by
      have h1 : (done.map Prod.fst ++ e.1 :: rest.map Prod.fst).Nodup := by
        have h0 := hc.keysNodup
        rw [hsplit] at h0
        simpa using h0
      have h2 := List.nodup_middle.mp h1
      simp only [List.nodup_cons, List.mem_append] at h2
      exact fun hm => h2.1 (Or.inl hm)
    have hparent_p_none : st.parentOf e.2.parent_qid = none := by
      rcases hx : st.parentOf e.2.parent_qid with _ | x
      · rfl
      · exfalso
        obtain ⟨qp, hqp_mem, hqp_par, hx_some⟩ := (hinv.parent_iff _ x).mp hx
        have h1 : (e.2.parent_qid, qp) ∈ es := hin_done _ hqp_mem
        have h2 := hc.oneLevel _ h1 _ hmem_e rfl
        rw [hqp_par] at h2
        rw [h2] at hx_some
        simp at hx_some
    have hp_ne_c : e.2.parent_qid ≠ e.1 := by
      intro heq
      have h0 := hc.oneLevel _ hmem_e _ hmem_e heq
      rw [h0] at hlk
      exact Option.noConfusion hlk
    have hkey : titleOf (linkState st e.1 e.2.parent_qid) e.2.parent_qid = pq.title := by
      unfold titleOf
      have he : (linkState st e.1 e.2.parent_qid).entries = es := by
        rw [linkState_entries, hinv.entries_eq]
      rw [he, hlk]
      have hpar : (linkState st e.1 e.2.parent_qid).parentOf e.2.parent_qid = none := by
        rw [linkState_parentOf, if_neg hp_ne_c, hparent_p_none]
      rw [hpar]
    have hkey_in : (st.groups.map Prod.fst).contains pq.title = true →
        (pq.title, e.2.parent_qid) ∈ st.groups := by
      intro hcont
      have hmem' : pq.title ∈ st.groups.map Prod.fst := by simpa using hcont
      obtain ⟨g, hg_mem, hg_fst⟩ := List.mem_map.mp hmem'
      obtain ⟨k0, p0⟩ := g
      obtain ⟨pq0, hlk0, hk0, _⟩ := (hinv.groups_iff k0 p0).mp hg_mem
      have hmem0 : (p0, pq0) ∈ es := alist_lookup_mem hlk0
      have heq_t : (fun d : Nat × RawQ => d.2.title) (p0, pq0) =
          (fun d : Nat × RawQ => d.2.title) (e.2.parent_qid, pq) := by
        simp only
        rw [← hk0]
        exact hg_fst
      have hpair := List.inj_on_of_nodup_map hc.titlesNodup hmem0 hmem_pq heq_t
      have hp0 : p0 = e.2.parent_qid := congrArg Prod.fst hpair
      rw [← hg_fst, ← hp0]
      exact hg_mem
    have hParent' : ∀ r x, (linkState st e.1 e.2.parent_qid).parentOf r = some x ↔
        ∃ q, (r, q) ∈ done ++ [e] ∧ q.parent_qid = x ∧ (alist_lookup es x).isSome := by
      intro r x
      by_cases hr : r = e.1
      · subst hr
        rw [linkState_parentOf, if_pos rfl]
        constructor
        · intro hx
          have hx' : e.2.parent_qid = x := by injection hx
          refine ⟨e.2, by simp, hx', ?_⟩
          rw [← hx', hlk]
          rfl
        · rintro ⟨q, hq, h2, _⟩
          rcases List.mem_append.mp hq with hq | hq
          · exact absurd (List.mem_map.mpr ⟨(e.1, q), hq, rfl⟩) hc_not_done
          · have hq' : (e.1, q) = e := by simpa using hq
            have hq2 : q = e.2 := congrArg Prod.snd hq'
            rw [hq2] at h2
            rw [h2]
      · rw [linkState_parentOf, if_neg hr, hinv.parent_iff r x]
        constructor
        · rintro ⟨q, hq, h2, h3⟩
          exact ⟨q, List.mem_append_left _ hq, h2, h3⟩
        · rintro ⟨q, hq, h2, h3⟩
          rcases List.mem_append.mp hq with hq | hq
          · exact ⟨q, hq, h2, h3⟩
          · exact absurd (congrArg Prod.fst (show (r, q) = e by simpa using hq)) hr
    have hChildren' : ∀ p0, (linkState st e.1 e.2.parent_qid).childrenOf p0 ≠ [] ↔
        ∃ d ∈ done ++ [e], d.2.parent_qid = p0 ∧ (alist_lookup es p0).isSome := by
      intro p0
      by_cases hp0 : p0 = e.2.parent_qid
      · subst hp0
        rw [linkState_childrenOf, if_pos rfl]
        constructor
        · intro _
          exact ⟨e, by simp, rfl, by rw [hlk]; rfl⟩
        · intro _
          exact upsertNat_ne_nil _ _
      · rw [linkState_childrenOf, if_neg hp0, hinv.children_iff p0]
        constructor
        · rintro ⟨d, hd, h2, h3⟩
          exact ⟨d, List.mem_append_left _ hd, h2, h3⟩
        · rintro ⟨d, hd, h2, h3⟩
          rcases List.mem_append.mp hd with hd | hd
          · exact ⟨d, hd, h2, h3⟩
          · exact absurd ((congrArg (fun d : Nat × RawQ => d.2.parent_qid)
              (show d = e by simpa using hd)) ▸ h2).symm hp0
    rw [processOne_some (by rw [hinv.entries_eq]; exact hlk), hkey]
    by_cases hcont : ((linkState st e.1 e.2.parent_qid).groups.map Prod.fst).contains pq.title = true
    · rw [if_pos hcont]
      refine ⟨by rw [linkState_entries, hinv.entries_eq], hParent', hChildren', ?_⟩
      intro k0 p0
      rw [linkState_groups]
      constructor
      · intro hmem0
        obtain ⟨pq0, h1, h2, d, hd, h3⟩ := (hinv.groups_iff k0 p0).mp hmem0
        exact ⟨pq0, h1, h2, d, List.mem_append_left _ hd, h3⟩
      · rintro ⟨pq0, h1, h2, d, hd, h3⟩
        rcases List.mem_append.mp hd with hd | hd
        · exact (hinv.groups_iff k0 p0).mpr ⟨pq0, h1, h2, d, hd, h3⟩
        · have hd' : d = e := by simpa using hd
          rw [hd'] at h3
          rw [← h3] at h1
          rw [hlk] at h1
          have hpq0 : pq0 = pq := by injection h1 with h1; exact h1.symm
          rw [← h3, h2, hpq0]
          exact hkey_in (by rw [← linkState_groups st e.1 e.2.parent_qid]; exact hcont)
    · rw [if_neg hcont]
      refine ⟨by rw [linkState_entries, hinv.entries_eq], hParent', hChildren', ?_⟩
      intro k0 p0
      show (k0, p0) ∈ (linkState st e.1 e.2.parent_qid).groups ++ [(pq.title, e.2.parent_qid)] ↔ _
      rw [linkState_groups]
      constructor
      · intro hmem0
        rcases List.mem_append.mp hmem0 with hmem0 | hmem0
        · obtain ⟨pq0, h1, h2, d, hd, h3⟩ := (hinv.groups_iff k0 p0).mp hmem0
          exact ⟨pq0, h1, h2, d, List.mem_append_left _ hd, h3⟩
        · have hpair : (k0, p0) = (pq.title, e.2.parent_qid) := by simpa using hmem0
          have hk0 : k0 = pq.title := congrArg Prod.fst hpair
          have hp0 : p0 = e.2.parent_qid := congrArg Prod.snd hpair
          subst hp0
          exact ⟨pq, hlk, hk0, e, by simp, rfl⟩
      · rintro ⟨pq0, h1, h2, d, hd, h3⟩
        rcases List.mem_append.mp hd with hd | hd
        · exact List.mem_append_left _ ((hinv.groups_iff k0 p0).mpr ⟨pq0, h1, h2, d, hd, h3⟩)
        · have hd' : d = e := by simpa using hd
          rw [hd'] at h3
          rw [← h3] at h1
          rw [hlk] at h1
          have hpq0 : pq0 = pq := by injection h1 with h1; exact h1.symm
          have : (k0, p0) = (pq.title, e.2.parent_qid) := by
            rw [h2, hpq0, ← h3]
          rw [this]
          simp

theorem foldl_inv {es : List (Nat × RawQ)} (hc : HierCtx es) :
    ∀ (todo done : List (Nat × RawQ)) (st : SurveyState),
      es = done ++ todo → HierInv es done st →
      HierInv es (done ++ todo) (todo.foldl processOne st) := by
  intro todo
  induction todo with
  | nil =>
    intro done st _ hinv
    simpa using hinv
  | cons e todo ih =>
    intro done st hsplit hinv
    have hstep := processOne_inv hc hsplit hinv
    have hsplit' : es = (done ++ [e]) ++ todo := by
      rw [hsplit, List.append_assoc]
      rfl
    have := ih (done ++ [e]) (processOne st e) hsplit' hstep
    simpa [List.append_assoc] using this

/-- The hierarchy characterization at the end of the linking pass: over the
indexed entry list `es`, under `HierCtx`, a question has a nonempty child
map exactly when some group holds it as parent. -/
theorem hier_iff {es : List (Nat × RawQ)} (hc : HierCtx es) (q : Nat) :
    (es.foldl processOne
        { entries := es, parentOf := fun _ => none, childrenOf := fun _ => [],
          groups := [] }).childrenOf q ≠ [] ↔
      ∃ k, (k, q) ∈ (es.foldl processOne
        { entries := es, parentOf := fun _ => none, childrenOf := fun _ => [],
          groups := [] }).groups := by
  have hbase : HierInv es []
      { entries := es, parentOf := fun _ => none, childrenOf := fun _ => [], groups := [] } := by
    refine ⟨rfl, ?_, ?_, ?_⟩
    · intro r x; simp
    · intro p; simp
    · intro k p; simp
  have hinv := foldl_inv hc es [] _ rfl hbase
  simp only [List.nil_append] at hinv
  constructor
  · intro hch
    obtain ⟨d, hd, h2, h3⟩ := (hinv.children_iff q).mp hch
    rcases hq : alist_lookup es q with _ | pq
    · rw [hq] at h3; simp at h3
    · exact ⟨pq.title, (hinv.groups_iff pq.title q).mpr ⟨pq, hq, rfl, d, hd, h2⟩⟩
  · rintro ⟨k, hk⟩
    obtain ⟨pq, h1, _, d, hd, h3⟩ := (hinv.groups_iff k q).mp hk
    exact (hinv.children_iff q).mpr ⟨d, hd, h3, by rw [h1]; rfl⟩

theorem hierCtx_of {qs : List RawQ}
    (hqid : (qs.map RawQ.qid).Nodup)
    (htitle : (qs.map RawQ.title).Nodup)
    (hone : ∀ q ∈ qs, (∃ c ∈ qs, c.parent_qid = q.qid) → ∀ r ∈ qs, r.qid ≠ q.parent_qid) :
    HierCtx (qs.map fun q => (q.qid, q)) := by
  refine ⟨?_, ?_, ?_, ?_⟩
  · intro e he
    obtain ⟨q, _, rfl⟩ := List.mem_map.mp he
    rfl
  · simpa [List.map_map, Function.comp_def] using hqid
  · simpa [List.map_map, Function.comp_def] using htitle
  · intro e he e' he' hpar
    obtain ⟨q, hq, rfl⟩ := List.mem_map.mp he
    obtain ⟨q', hq', rfl⟩ := List.mem_map.mp he'
    have h := hone q hq ⟨q', hq', hpar⟩
    rw [alist_lookup_eq_none]
    intro hmem
    obtain ⟨r, hr, hrq⟩ :=
      List.mem_map.mp (by simpa [List.map_map, Function.comp_def] using hmem)
    exact h r hr hrq

theorem buildSurvey_eq {qs : List RawQ} (h : (qs.map RawQ.qid).Nodup) :
    buildSurvey qs = (qs.map fun q => (q.qid, q)).foldl processOne
      { entries := qs.map fun q => (q.qid, q), parentOf := fun _ => none,
        childrenOf := fun _ => [], groups := [] } := by
  simp only [buildSurvey]
  rw [loadQuestions_eq h]

/-! ## Characterizing `get_value` over a lookup-backed response -/

/-- The contribution of one child sub-question to the aggregated value, as
the specification words it: nothing when the answer is the sentinel
`"N/A"`, the sub-question's cleaned text otherwise. -/
def specChildValue (st : SurveyState) (answers : List (String × String)) (sq : Nat) :
    Option String :=
  match alist_lookup answers (titleOf st sq) with
  | some a => if a = "N/A" then none else some (questionTextOf st sq)
  | none => none

/-- The "other" tail of the aggregated value, as the specification words
it: empty when the `{parent_title}[other]` key is absent or holds the
literal string `"None"`, the single looked-up value otherwise. -/
def specOtherValue (st : SurveyState) (p : Nat) (answers : List (String × String)) :
    List String :=
  match alist_lookup answers (titleOf st p ++ "[other]") with
  | some v => if v = "None" then [] else [v]
  | none => []

theorem collectValues_lookup (st : SurveyState) (answers : List (String × String)) :
    ∀ children : List Nat,
      (∀ sq ∈ children, (alist_lookup answers (titleOf st sq)).isSome) →
      collectValues st (lookupGetAnswer answers) children =
        .ok (children.filterMap (specChildValue st answers)) := by
  intro children
  induction children with
  | nil => intro _; rfl
  | cons sq rest ih =>
    intro h
    have hsq := h sq (by simp)
    rcases hlk : alist_lookup answers (titleOf st sq) with _ | a
    · rw [hlk] at hsq; simp at hsq
    · have hrest := ih fun x hx => h x (by simp [hx])
      simp only [collectValues, lookupGetAnswer, hlk, hrest, List.filterMap_cons,
        specChildValue]
      by_cases ha : a = "N/A" <;> simp [ha]

theorem get_value_char (st : SurveyState) (p : Nat) (answers : List (String × String))
    (h : ∀ sq ∈ st.childrenOf p, (alist_lookup answers (titleOf st sq)).isSome) :
    get_value st p (lookupGetAnswer answers) =
      .ok (sortStrings ((st.childrenOf p).filterMap (specChildValue st answers)) ++
        specOtherValue st p answers) := by
  unfold get_value
  rw [collectValues_lookup st answers _ h]
  unfold get_other_value lookupGetAnswer specOtherValue
  rcases ho : alist_lookup answers (titleOf st p ++ "[other]") with _ | v
  · simp
  · by_cases hv : v = "None" <;> simp [hv]

/-! ## The greedy tag regex equals the first-to-last span collapse -/

theorem afterLastGt_not_gt : ∀ l : List Char, '>' ∉ afterLastGt l := by
  intro l
  induction l with
  | nil => simp [afterLastGt]
  | cons c t ih =>
    simp only [afterLastGt]
    split
    · exact ih
    · split
      · assumption
      · intro hmem
        rcases List.mem_cons.mp hmem with h | h
        · exact (by assumption : ¬c = '>') h.symm
        · exact ih h

theorem tagSub_no_gt : ∀ l : List Char, '>' ∉ l → tagSub l = l := by
  intro l
  induction l with
  | nil => intro _; simp [tagSub]
  | cons c t ih =>
    intro h
    have hgt : '>' ∉ t := fun hm => h (List.mem_cons_of_mem _ hm)
    rw [tagSub, if_neg (fun hand => hgt hand.2), ih hgt]

theorem mem_afterFirstLt {a : Char} {l : List Char} (h : a ∈ afterFirstLt l) : a ∈ l :=
  ((List.tail_sublist _).trans (List.dropWhile_sublist _)).subset h

theorem tagSub_eq_span : ∀ l : List Char, tagSub l = spanCollapseSpec l := by
  intro l
  induction l with
  | nil => simp [tagSub, spanCollapseSpec]
  | cons c t ih =>
    by_cases hmatch : c = '<' ∧ '>' ∈ t
    · obtain ⟨rfl, hgt⟩ := hmatch
      rw [tagSub, if_pos ⟨rfl, hgt⟩, tagSub_no_gt _ (afterLastGt_not_gt t)]
      have hAfl : afterFirstLt ('<' :: t) = t := by
        simp [afterFirstLt, List.dropWhile_cons]
      have hBfl : beforeFirstLt ('<' :: t) = [] := by
        simp [beforeFirstLt, List.takeWhile_cons]
      rw [spanCollapseSpec, if_pos ⟨by simp, by rw [hAfl]; exact hgt⟩, hBfl]
      rw [show afterLastGt ('<' :: t) = afterLastGt t by rw [afterLastGt, if_pos hgt]]
      rfl
    · rw [tagSub, if_neg hmatch, ih]
      by_cases hc : c = '<'
      · subst hc
        have hgt : '>' ∉ t := fun hm => hmatch ⟨rfl, hm⟩
        have hAfl : afterFirstLt ('<' :: t) = t := by
          simp [afterFirstLt, List.dropWhile_cons]
        rw [show spanCollapseSpec ('<' :: t) = '<' :: t from by
          rw [spanCollapseSpec, if_neg]
          rintro ⟨_, hmem⟩
          rw [hAfl] at hmem
          exact hgt hmem]
        rw [show spanCollapseSpec t = t from by
          rw [spanCollapseSpec, if_neg]
          rintro ⟨_, hmem⟩
          exact hgt (mem_afterFirstLt hmem)]
      · have hAfl : afterFirstLt (c :: t) = afterFirstLt t := by
          simp [afterFirstLt, List.dropWhile_cons, hc]
        have hBfl : beforeFirstLt (c :: t) = c :: beforeFirstLt t := by
          simp [beforeFirstLt, List.takeWhile_cons, hc]
        have hmemc : ('<' ∈ c :: t) ↔ '<' ∈ t :=
          ⟨fun h => (List.mem_cons.mp h).resolve_left fun h' => hc h'.symm,
            fun h => List.mem_cons_of_mem _ h⟩
        by_cases hcond : '<' ∈ t ∧ '>' ∈ afterFirstLt t
        · have hgt_t : '>' ∈ t := mem_afterFirstLt hcond.2
          have hAlg : afterLastGt (c :: t) = afterLastGt t := by
            rw [afterLastGt, if_pos hgt_t]
          have h1 : spanCollapseSpec (c :: t) =
              c :: (beforeFirstLt t ++ ' ' :: afterLastGt t) := by
            rw [spanCollapseSpec,
              if_pos ⟨hmemc.mpr hcond.1, by rw [hAfl]; exact hcond.2⟩, hBfl, hAlg]
            rfl
          have h2 : spanCollapseSpec t = beforeFirstLt t ++ ' ' :: afterLastGt t := by
            rw [spanCollapseSpec, if_pos hcond]
          rw [h1, h2]
        · have h1 : spanCollapseSpec (c :: t) = c :: t := by
            rw [spanCollapseSpec, if_neg]
            rintro ⟨ha, hb⟩
            exact hcond ⟨hmemc.mp ha, by rw [← hAfl]; exact hb⟩
          have h2 : spanCollapseSpec t = t := by
            rw [spanCollapseSpec, if_neg hcond]
          rw [h1, h2]

/-! ## Concrete fixtures -/

theorem has_children_iff (st : SurveyState) (q : Nat) :
    has_children st q = true ↔ st.childrenOf q ≠ [] := by
  rw [has_children]
  rcases h : st.childrenOf q with _ | ⟨a, t⟩ <;> simp [h]

/-- The three-question survey of the specification's hierarchy example. -/
def exampleQs : List RawQ :=
  [⟨1, 0, "Q1", "q1 text"⟩, ⟨2, 1, "A", "text a"⟩, ⟨3, 1, "B", "text b"⟩]

def exampleSurvey : SurveyState := buildSurvey exampleQs

/-- Two parents sharing the base title `"T"`, each with one child. -/
def dupTitleQs : List RawQ :=
  [⟨1, 0, "T", ""⟩, ⟨2, 0, "T", ""⟩, ⟨3, 1, "X", ""⟩, ⟨4, 2, "Y", ""⟩]

/-- Response answers for the example survey: sub-question A unselected,
B selected, "other" holding the literal string `"None"`. -/
def exampleAnswers : List (String × String) :=
  [("Q1[A]", "N/A"), ("Q1[B]", "Yes"), ("Q1[other]", "None")]

/-- Response answers with no sub-question selected and an empty-string
"other" value. -/
def emptyOtherAnswers : List (String × String) :=
  [("Q1[A]", "N/A"), ("Q1[B]", "N/A"), ("Q1[other]", "")]

/-- The export document of the specification's flattening example. -/
def exportDoc : JVal :=
  JVal.obj [("responses", JVal.arr
    [JVal.obj [("1", JVal.obj [("id", JVal.num 1), ("q1", JVal.str "x")])],
     JVal.obj [("2", JVal.obj [("id", JVal.num 2), ("q1", JVal.str "y")])]])]

/-- Export parameters whose `completion_status` is outside
`{complete, incomplete, all}`. -/
def bogusParams : ExportParams := ⟨1, "bogus", "code", "long"⟩

/-- A session state that is fully valid: authenticated, non-empty key,
transport handles present. -/
def validState : LimeState := ⟨true, some "key", true, true, 1⟩

/-! ## Claims -/

/-- C1: the claim that invalid `completion_status` / `heading_type` /
`response_type` values are rejected with `InvalidParameterError` before any
network call FAILS on the code: `export_responses` binds its three
valid-value lists but never consults them, no `InvalidParameterError`
exists anywhere in the codebase, and with `completion_status = "bogus"`
(not a valid completion status) the RPC request is still issued and its
flattened result returned. -/
theorem c1_export_no_validation :
    export_responses (fun _ => exportDoc) bogusParams =
      ([bogusParams],
        .ok [JVal.obj [("id", JVal.num 1), ("q1", JVal.str "x")],
             JVal.obj [("id", JVal.num 2), ("q1", JVal.str "y")]]) ∧
    bogusParams.completion_status ∉ ["complete", "incomplete", "all"] :=
  ⟨rfl, by decide⟩

/-- C2 counterexample: with two parents sharing the display title `"T"`,
question 2 is loaded and has a child (question 4), yet no group in the
mapping has question 2 as its parent — group creation was skipped because
the key `"T"` was already taken by question 1's group.  This falsifies
"has_children(q) iff some group has q as its parent" on an arbitrary loaded
set. -/
theorem c2_counterexample :
    (2, (⟨2, 0, "T", ""⟩ : RawQ)) ∈ (buildSurvey dupTitleQs).entries ∧
    has_children (buildSurvey dupTitleQs) 2 = true ∧
    ∀ kp ∈ (buildSurvey dupTitleQs).groups, kp.2 ≠ 2 := by
  decide

/-- C2 (amended): provided the loaded questions have pairwise-distinct qids
and pairwise-distinct titles, and no question is both a parent and a child
(the one-level hierarchy the specification itself assumes), then after
hierarchy construction a question has children exactly when some group in
the mapping has it as parent. -/
theorem c2_group_iff_children (qs : List RawQ)
    (hqid : (qs.map RawQ.qid).Nodup)
    (htitle : (qs.map RawQ.title).Nodup)
    (hone : ∀ q ∈ qs, (∃ c ∈ qs, c.parent_qid = q.qid) → ∀ r ∈ qs, r.qid ≠ q.parent_qid)
    (q : Nat) :
    has_children (buildSurvey qs) q = true ↔ ∃ k, (k, q) ∈ (buildSurvey qs).groups := by
  rw [has_children_iff, buildSurvey_eq hqid]
  exact hier_iff (hierCtx_of hqid htitle hone) q

theorem c2_group_iff_children_witness :
    has_children (buildSurvey exampleQs) 1 = true ↔
      ∃ k, (k, 1) ∈ (buildSurvey exampleQs).groups :=
  c2_group_iff_children exampleQs (by decide) (by decide) (by decide) 1

/-- C3: over a response that answers every child sub-question (the
spec-modelled lookup-backed `get_answer`), `get_value` returns exactly the
cleaned texts of the children whose answer is not the sentinel `"N/A"`,
sorted lexicographically, followed by the single `{parent_title}[other]`
value — omitted when the key is absent or holds the literal `"None"`,
appended last otherwise. -/
theorem c3_group_value (st : SurveyState) (p : Nat) (answers : List (String × String))
    (h : ∀ sq ∈ st.childrenOf p, (alist_lookup answers (titleOf st sq)).isSome) :
    get_value st p (lookupGetAnswer answers) =
      .ok (sortStrings ((st.childrenOf p).filterMap (specChildValue st answers)) ++
        specOtherValue st p answers) :=
  get_value_char st p answers h

theorem c3_group_value_witness :
    get_value exampleSurvey 1 (lookupGetAnswer exampleAnswers) =
      .ok (sortStrings ((exampleSurvey.childrenOf 1).filterMap
        (specChildValue exampleSurvey exampleAnswers)) ++
        specOtherValue exampleSurvey 1 exampleAnswers) :=
  c3_group_value exampleSurvey 1 exampleAnswers (by decide)

/-- C4 counterexample: the claim that an empty-string "other" answer is
never appended FAILS on the code: with both sub-questions unselected and
`"Q1[other]"` holding `""`, `get_value` returns `[""]` — the empty string
is appended, because `get_other_value` filters only the literal `"None"`
and `get_value` tests only `is not None`. -/
theorem c4_counterexample :
    get_value exampleSurvey 1 (lookupGetAnswer emptyOtherAnswers) = .ok [""] ∧
    ("" : String) ≠ "None" :=
  ⟨rfl, by decide⟩

/-- C4 (amended): the "other" entry is appended exactly when its key is
present and its value is not the literal string `"None"` — emptiness is
not checked; in particular a present empty-string "other" is appended
last. -/
theorem c4_empty_other_appended (st : SurveyState) (p : Nat)
    (answers : List (String × String))
    (h : ∀ sq ∈ st.childrenOf p, (alist_lookup answers (titleOf st sq)).isSome)
    (ho : alist_lookup answers (titleOf st p ++ "[other]") = some "") :
    get_value st p (lookupGetAnswer answers) =
      .ok (sortStrings ((st.childrenOf p).filterMap (specChildValue st answers)) ++ [""]) := by
  rw [get_value_char st p answers h]
  have h2 : specOtherValue st p answers = [""] := by
    simp [specOtherValue, ho]
  rw [h2]

theorem c4_empty_other_appended_witness :
    get_value exampleSurvey 1 (lookupGetAnswer emptyOtherAnswers) =
      .ok (sortStrings ((exampleSurvey.childrenOf 1).filterMap
        (specChildValue exampleSurvey emptyOtherAnswers)) ++ [""]) :=
  c4_empty_other_appended exampleSurvey 1 emptyOtherAnswers (by decide) rfl

/-- C5: on the three raw questions {qid 1, parent 0, "Q1"},
{qid 2, parent 1, "A"}, {qid 3, parent 1, "B"}, the builder produces
exactly one group, keyed "Q1" with parent question 1, whose members are
questions 2 and 3 with display titles "Q1[A]" and "Q1[B]"; question 1 has
children and questions 2 and 3 do not. -/
theorem c5_hierarchy_example :
    exampleSurvey.groups = [("Q1", 1)] ∧
    exampleSurvey.childrenOf 1 = [2, 3] ∧
    titleOf exampleSurvey 2 = "Q1[A]" ∧
    titleOf exampleSurvey 3 = "Q1[B]" ∧
    has_children exampleSurvey 1 = true ∧
    has_children exampleSurvey 2 = false ∧
    has_children exampleSurvey 3 = false := by
  decide

/-- C6: for every decoded export document of shape
`{"responses": [m1, ..., mn]}` with each `mi` a one-entry map from a
response id to a record, the flattening returns exactly the records in
order, discarding the wrapping keys; in particular the specification's
two-record example document flattens to its two flat records. -/
theorem c6_export_flatten :
    (∀ recs : List (String × JVal),
      flatten_responses
        (JVal.obj [("responses", JVal.arr (recs.map fun kr => JVal.obj [kr]))]) =
        .ok (recs.map Prod.snd)) ∧
    flatten_responses exportDoc =
      .ok [JVal.obj [("id", JVal.num 1), ("q1", JVal.str "x")],
           JVal.obj [("id", JVal.num 2), ("q1", JVal.str "y")]] := by
  constructor
  · intro recs
    have hrows : ∀ rs : List (String × JVal),
        collectRows (rs.map fun kr => JVal.obj [kr]) = .ok (rs.map Prod.snd) := by
      intro rs
      induction rs with
      | nil => rfl
      | cons kr rest ih => simp [collectRows, ih]
    have hred : ∀ maps, flatten_responses (JVal.obj [("responses", JVal.arr maps)]) =
        collectRows maps := fun maps => rfl
    rw [hred, hrows]
  · rfl

/-- C7 counterexample: the claim quantifies over every body mapping with an
`id` key and a string `error`; but a mapping also holding a key outside the
allow-list raises `InvalidReplyError` instead of producing the error
result, because the key check runs first. -/
theorem c7_counterexample :
    parse_reply [("id", JVal.num 1), ("error", JVal.str "bad creds"), ("bogus", JVal.num 2)] =
      .error "Key not allowed: bogus" ∧
    ∀ r : RpcReply,
      parse_reply [("id", JVal.num 1), ("error", JVal.str "bad creds"), ("bogus", JVal.num 2)] ≠
        .ok r :=
  ⟨rfl, fun _ h => Except.noConfusion h⟩

/-- C7 (amended): for every body mapping whose keys all lie in the allowed
set {id, result, error, jsonrpc}, holding an `id` and whose `error` is a
plain string `s`, the adapter produces the error result with message `s`
and the sentinel code `-1`. -/
theorem c7_string_error (rep : List (String × JVal)) (uid : JVal) (s : String)
    (hkeys : ∀ k ∈ rep.map Prod.fst, k ∈ allowedReplyKeys)
    (hid : alist_lookup rep "id" = some uid)
    (herr : alist_lookup rep "error" = some (JVal.str s)) :
    parse_reply rep = .ok (.failure (.str s) (.num (-1)) none uid) := by
  unfold parse_reply
  have hfind : ∀ ks : List String, (∀ k ∈ ks, k ∈ allowedReplyKeys) →
      ks.find? (fun k => !(allowedReplyKeys.contains k)) = none := by
    intro ks
    induction ks with
    | nil => intro _; rfl
    | cons a t ih =>
      intro h
      have ha : allowedReplyKeys.contains a = true :=
        List.elem_eq_true_of_mem (h a (by simp))
      simp only [List.find?_cons, ha, Bool.not_true]
      exact ih fun k hk => h k (by simp [hk])
  rw [hfind _ hkeys, hid, herr]

theorem c7_string_error_witness :
    parse_reply [("id", JVal.num 1), ("error", JVal.str "bad creds")] =
      .ok (.failure (.str "bad creds") (.num (-1)) none (.num 1)) :=
  c7_string_error [("id", JVal.num 1), ("error", JVal.str "bad creds")]
    (.num 1) "bad creds" (by decide) rfl rfl

/-- C8: on a session that is already valid — authenticated, with a
validating token and present transport handles — `_validate_auth` run twice
in succession leaves the state unchanged and performs zero authentication
round trips, whatever state transition `authenticate` would apply. -/
theorem c8_validate_auth_idempotent (authenticate : LimeState → LimeState) (st : LimeState)
    (h1 : st._authenticated = true)
    (h2 : _validate_session_key st = true)
    (h3 : _validate_rpc_resources st = true) :
    _validate_auth authenticate (_validate_auth authenticate st) = st ∧
    (_validate_auth authenticate (_validate_auth authenticate st)).auth_round_trips =
      st.auth_round_trips := by
  have hstep : _validate_auth authenticate st = st := by
    rw [_validate_auth, h1, h2, h3]
    rfl
  rw [hstep, hstep]
  exact ⟨rfl, rfl⟩

theorem c8_validate_auth_idempotent_witness :
    _validate_auth (fun s => { s with auth_round_trips := s.auth_round_trips + 1 })
        (_validate_auth (fun s => { s with auth_round_trips := s.auth_round_trips + 1 })
          validState) = validState ∧
    (_validate_auth (fun s => { s with auth_round_trips := s.auth_round_trips + 1 })
        (_validate_auth (fun s => { s with auth_round_trips := s.auth_round_trips + 1 })
          validState)).auth_round_trips = validState.auth_round_trips :=
  c8_validate_auth_idempotent _ validState rfl rfl rfl

/-- C9: the cleaner replaces each newline, tab and carriage return by a
space, collapses the span from the first `'<'` to the last `'>'` — one
single greedy match over the whole line, even across multiple independent
tags — into one space, collapses runs of spaces, and alters nothing else:
the regex pipeline coincides with the first-to-last-span description on
every input. -/
theorem c9_clean_text (s : String) : clean_question_text s = cleanSpec s := by
  unfold clean_question_text cleanSpec
  rw [tagSub_eq_span]

/-- C10: invoking `get_value` on a group with at least one child against
the public base `Response` class — which defines no `get_answer`, only
`id` and `dict` — never produces an aggregated value: the very first child
lookup raises `AttributeError`. -/
theorem c10_base_response_no_value (st : SurveyState) (p : Nat)
    (h : st.childrenOf p ≠ []) :
    get_value st p baseGetAnswer = .error .attributeError := by
  rcases hch : st.childrenOf p with _ | ⟨c, rest⟩
  · exact absurd hch h
  · rw [get_value, hch]
    have hcol : collectValues st baseGetAnswer (c :: rest) = .error .attributeError := by
      rw [collectValues]
      rfl
    rw [hcol]

theorem c10_base_response_no_value_witness :
    get_value exampleSurvey 1 baseGetAnswer = .error .attributeError :=
  c10_base_response_no_value exampleSurvey 1 (by decide)

end Coconut
